import Mathlib

/-!
Shallow embedding of the ninja-game-simulator (src/main.js).

Modelling conventions:
* JS numbers that carry time, coordinates and durations are modelled as `ℚ`
  (all arithmetic in the program on these values is exact rational
  arithmetic: additions, subtractions, multiplication and division by
  constants).
* `HTMLImageElement`s are modelled as opaque handles of type `Nat`.
* JS objects used as string-keyed records (`this.animations`,
  `this.frameDurations`, the image cache) are modelled as functions
  `String → Option _`; `none` models an absent property / `undefined`.
* Bus traffic is modelled explicitly: each handler returns the list of
  messages it emits, in emission order.  The only handlers registered on
  the bus that feed back into game state are the PlayerController's
  "action" and "reset" handlers; the HUD handlers registered in
  `Game._setupHud` only write to DOM text and are therefore not modelled.
-/

/-- Messages on the shared event bus of `main.js` (event name + payload). -/
inductive BusMsg where
  | action (payload : String)
  | reset
  | stateChanged (s : String)
  | queueChanged (q : List String)
  deriving DecidableEq

/-- State of `AnimationPlayer` (src/main.js lines 106-168). -/
structure AnimationPlayer where
  animations : String → Option (List Nat)
  frameDurations : String → Option ℚ
  current : String
  loop : Bool
  frameIndex : Nat
  accumulator : ℚ
  finished : Bool

namespace AnimationPlayer

/-- The constructor of `AnimationPlayer` (lines 111-120). -/
def mkInit (animations : String → Option (List Nat))
    (frameDurations : String → Option ℚ) : AnimationPlayer :=
  { animations := animations
    frameDurations := frameDurations
    current := "idle"
    loop := true
    frameIndex := 0
    accumulator := 0
    finished := false }

/-- `AnimationPlayer.play` (lines 126-135).  Note that in JS an *empty*
frame array is truthy, so the `if (!this.animations[animation]) return;`
guard only fires when the property is absent (`none` here). -/
def play (p : AnimationPlayer) (animation : String) (loop : Bool) :
    AnimationPlayer :=
  match p.animations animation with
  | none => p
  | some _ =>
    if p.current = animation ∧ p.loop = loop ∧ p.finished = false then p
    else
      { p with current := animation, loop := loop, frameIndex := 0,
               accumulator := 0, finished := false }

/-- The `while (this.accumulator >= frameDuration)` loop of
`AnimationPlayer.update` (lines 147-160), written with explicit fuel so
that it is structurally recursive and kernel-evaluable.  One fuel unit is
spent per loop iteration; `update` below supplies enough fuel for every
iteration the JS loop performs when the frame duration is positive (the
only situation arising in the program: every duration configured in
`Game` is positive and the `?? 100` default is positive; for a
non-positive duration with `acc ≥ d` the JS loop would not terminate). -/
def animLoop (n : Nat) (d : ℚ) (lp : Bool) :
    Nat → Nat → ℚ → Bool → Nat × ℚ × Bool
  | 0, fi, acc, fin => (fi, acc, fin)
  | fuel + 1, fi, acc, fin =>
    if d ≤ acc then
      if n ≤ fi + 1 then
        if lp then animLoop n d lp fuel 0 (acc - d) fin
        else (n - 1, acc - d, true)
      else animLoop n d lp fuel (fi + 1) (acc - d) fin
    else (fi, acc, fin)

/-- Fuel sufficient for `animLoop`: one unit per whole multiple of `d`
contained in `acc` (the loop subtracts `d` once per iteration and every
iteration requires `acc ≥ d`). -/
def loopFuel (acc d : ℚ) : Nat :=
  if 0 < d then (⌊acc / d⌋ + 1).toNat else 0

/-- `AnimationPlayer.update` (lines 140-161). -/
def update (p : AnimationPlayer) (dtMs : ℚ) : AnimationPlayer :=
  match p.animations p.current with
  | none => p
  | some frames =>
    if frames.length = 0 then p
    else
      let frameDuration := (p.frameDurations p.current).getD 100
      let acc0 := p.accumulator + dtMs
      let r := animLoop frames.length frameDuration p.loop
        (loopFuel acc0 frameDuration) p.frameIndex acc0 p.finished
      { p with frameIndex := r.1, accumulator := r.2.1, finished := r.2.2 }

/-- `AnimationPlayer.getFrame` (lines 163-167).  `none` models both the
explicit `null` (missing/empty animation) and the `undefined` an
out-of-range index would produce. -/
def getFrame (p : AnimationPlayer) : Option Nat :=
  match p.animations p.current with
  | none => none
  | some frames =>
    if frames.length = 0 then none else frames[p.frameIndex]?

end AnimationPlayer

/-- State of `PlayerController` (src/main.js lines 176-258). -/
structure PlayerController where
  anim : AnimationPlayer
  state : String
  queue : List String
  x : ℚ
  y : ℚ
  speed : ℚ

namespace PlayerController

/-- The constructor of `PlayerController` (lines 177-189): fresh state
before any bus event or `_enterState` call. -/
def mkInit (anim : AnimationPlayer) : PlayerController :=
  { anim := anim, state := "idle", queue := [], x := 0, y := 0, speed := 140 }

/-- `PlayerController._enterState` (lines 210-221).  Returns the updated
controller together with the bus messages it emits. -/
def enterState (pc : PlayerController) (state : String) :
    PlayerController × List BusMsg :=
  let pc1 := { pc with state := state }
  if state = "idle" then
    ({ pc1 with anim := pc1.anim.play "idle" true },
     [BusMsg.stateChanged state])
  else
    ({ pc1 with anim := pc1.anim.play state false },
     [BusMsg.stateChanged state])

/-- The "action" bus handler installed by `_setupBusHandlers`
(lines 192-199).  The `if (!action) return;` guard fires on falsy
payloads; the only falsy `String` payload is the empty string. -/
def handleAction (pc : PlayerController) (action : String) :
    PlayerController × List BusMsg :=
  if action = "" then (pc, [])
  else
    let q1 := if 12 < pc.queue.length then pc.queue.tail else pc.queue
    let q2 := q1 ++ [action]
    ({ pc with queue := q2 }, [BusMsg.queueChanged q2])

/-- The "reset" bus handler installed by `_setupBusHandlers`
(lines 201-207). -/
def handleReset (pc : PlayerController) : PlayerController × List BusMsg :=
  let pc1 := { pc with queue := [], x := 0, y := 0 }
  let r := enterState pc1 "idle"
  (r.1, r.2 ++ [BusMsg.queueChanged []])

/-- The `const next = this._consumeNextAction(); this._enterState(next
?? "idle")` sequence both branches of `PlayerController.update` perform
(lines 236-237 and 242-243): `_consumeNextAction` (lines 223-227) shifts
the queue head (JS `shift()` returns the head or `undefined`, modelled
by the `"idle"` default the caller applies via `next ?? "idle"`) and
emits "queueChanged"; then the shifted action is entered. -/
def consumeEnter (pc : PlayerController) : PlayerController × List BusMsg :=
  let pcq := { pc with queue := pc.queue.tail }
  let r := enterState pcq (pc.queue.head?.getD "idle")
  (r.1, BusMsg.queueChanged pcq.queue :: r.2)

/-- `PlayerController.update` (lines 233-257). -/
def update (pc : PlayerController) (dtMs worldWidth worldHeight : ℚ) :
    PlayerController × List BusMsg :=
  let s1 :=
    if pc.state ≠ "idle" ∧ pc.anim.finished = true then consumeEnter pc
    else (pc, ([] : List BusMsg))
  let pc1 := s1.1
  let s2 :=
    if pc1.state = "idle" ∧ 0 < pc1.queue.length then consumeEnter pc1
    else (pc1, ([] : List BusMsg))
  let pc2 := s2.1
  let dtSec := dtMs / 1000
  let x1 :=
    if pc2.state = "forward" then pc2.x + pc2.speed * dtSec
    else if pc2.state = "backward" then pc2.x - pc2.speed * dtSec
    else pc2.x
  let pad : ℚ := 40
  let x2 := max (-worldWidth / 2 + pad) (min (worldWidth / 2 - pad) x1)
  let y2 := max (-worldHeight / 2 + pad) (min (worldHeight / 2 - pad) pc2.y)
  ({ pc2 with x := x2, y := y2, anim := pc2.anim.update dtMs },
   s1.2 ++ s2.2)

end PlayerController

/-- The actions named by the input sources and consumed by the state
machine (src/main.js lines 270-316). -/
def ActionSet : List String := ["kick", "punch", "forward", "backward", "block"]

/-- Messages emitted by the keydown listener of
`InputManager._setupKeyboard` (lines 289-317) for a given key value. -/
def keydownEvents (key : String) : List BusMsg :=
  if key = "ArrowUp" then [BusMsg.action "kick"]
  else if key = "ArrowDown" then [BusMsg.action "punch"]
  else if key = "ArrowRight" then [BusMsg.action "forward"]
  else if key = "ArrowLeft" then [BusMsg.action "backward"]
  else if key = " " then [BusMsg.action "block"]
  else []

/-- Messages emitted by the click listener that
`InputManager._setupButtons` (lines 270-287) attaches to the on-screen
button with the given element id (the `map` there sends each of the five
action ids to itself; the "reset" button gets its own listener; other
ids get no listener, hence no messages). -/
def buttonClickEvents (id : String) : List BusMsg :=
  if id = "kick" ∨ id = "punch" ∨ id = "forward" ∨ id = "backward" ∨
      id = "block" then [BusMsg.action id]
  else if id = "reset" then [BusMsg.reset]
  else []

/-- Whether a bus message is an "action" event whose payload is one of
the five named actions. -/
def isFiveAction : BusMsg → Bool
  | BusMsg.action p => ActionSet.contains p
  | _ => false

/-- State of `AssetLoader` (src/main.js lines 41-101): a base path and an
in-memory image cache keyed by URL. -/
structure AssetLoader where
  basePath : String
  cache : String → Option Nat

namespace AssetLoader

/-- The constructor of `AssetLoader` (lines 42-46): empty cache. -/
def mkInit (basePath : String) : AssetLoader :=
  { basePath := basePath, cache := fun _ => none }

/-- `AssetLoader.loadImage` (lines 52-66).  The environment is modelled
by an oracle `loads : String → Option Nat` giving, for each URL, the
image the browser would deliver (`none` = the load errors).  The result
is the settled promise value, the loader afterwards (the cache is only
written in the `onload` handler, so it is unchanged on a cache hit and
on a failed load), and whether a fresh `Image` was created and a network
load issued (false exactly on a cache hit). -/
def loadImage (loads : String → Option Nat) (L : AssetLoader) (url : String) :
    Except String Nat × AssetLoader × Bool :=
  match L.cache url with
  | some img => (Except.ok img, L, false)
  | none =>
    match loads url with
    | some img =>
      (Except.ok img,
       { L with cache := fun u => if u = url then some img else L.cache u },
       true)
    | none => (Except.error ("Failed to load image: " ++ url), L, true)

/-- The URL built for one frame in `AssetLoader.loadAnimations`
(line 90). -/
def urlFor (basePath animation : String) (frameNumber : Nat) : String :=
  basePath ++ "/" ++ animation ++ "/" ++ toString frameNumber ++ ".png"

/-- The inner frame loop of `loadAnimations` (lines 88-94): loads each
frame of one animation sequentially, stopping at (and propagating) the
first rejection, as the `await` inside the `async` function does. -/
def loadFrames (loads : String → Option Nat) (L : AssetLoader)
    (animation : String) : List Nat → Except String (AssetLoader × List Nat)
  | [] => Except.ok (L, [])
  | frameNumber :: rest =>
    match loadImage loads L (urlFor L.basePath animation frameNumber) with
    | (Except.error e, _, _) => Except.error e
    | (Except.ok img, L', _) =>
      match loadFrames loads L' animation rest with
      | Except.error e => Except.error e
      | Except.ok (L'', imgs) => Except.ok (L'', img :: imgs)

/-- `AssetLoader.loadAnimations` (lines 74-100), over the animations in
`Object.keys` (= insertion) order.  Returns the loader and the loaded
`Record<string, HTMLImageElement[]>` as an ordered association list, or
the first load error. -/
def loadAnimations (loads : String → Option Nat) (L : AssetLoader) :
    List (String × List Nat) → Except String (AssetLoader × List (String × List Nat))
  | [] => Except.ok (L, [])
  | (animation, frames) :: rest =>
    match loadFrames loads L animation frames with
    | Except.error e => Except.error e
    | Except.ok (L', imgs) =>
      match loadAnimations loads L' rest with
      | Except.error e => Except.error e
      | Except.ok (L'', result) => Except.ok (L'', (animation, imgs) :: result)

end AssetLoader

/-- The frame table declared in `boot` (src/main.js lines 490-497), in
source order. -/
def bootFrames : List (String × List Nat) :=
  [("idle", [1, 2, 3, 4, 5, 6, 7, 8]),
   ("kick", [1, 2, 3, 4, 5, 6, 7]),
   ("punch", [1, 2, 3, 4, 5, 6, 7]),
   ("backward", [1, 2, 3, 4, 5, 6]),
   ("forward", [1, 2, 3, 4, 5, 6]),
   ("block", [1, 2, 3, 4, 5, 6])]

/-- Outcome of the boot sequence: either the game is constructed and
started with the loaded animations, or the loading indicator shows an
error string. -/
inductive BootResult where
  | started (animations : List (String × List Nat))
  | showError (text : String)
  deriving DecidableEq

/-- The `boot` IIFE (src/main.js lines 484-514): loads the frame table
through a fresh `AssetLoader` with base path "images" and either starts
the game or, on any rejection, writes the error string
"Failed to load assets. Check console." into the loading indicator. -/
def boot (loads : String → Option Nat) : BootResult :=
  match AssetLoader.loadAnimations loads (AssetLoader.mkInit "images") bootFrames with
  | Except.ok (_, animations) => BootResult.started animations
  | Except.error _ => BootResult.showError "Failed to load assets. Check console."

/-- The frame durations configured in the `Game` constructor
(src/main.js lines 399-406). -/
def gameFrameDurations : String → Option ℚ
  | "idle" => some 120
  | "kick" => some 90
  | "punch" => some 90
  | "forward" => some 80
  | "backward" => some 80
  | "block" => some 100
  | _ => none

namespace PlayerController

/-- The player state right after the `Game` constructor ran
(src/main.js lines 408-410): a fresh `AnimationPlayer`, a fresh
`PlayerController`, then `player._enterState("idle")`. -/
def booted (animations : String → Option (List Nat))
    (frameDurations : String → Option ℚ) : PlayerController :=
  ((mkInit (AnimationPlayer.mkInit animations frameDurations)).enterState
    "idle").1

/-- Player states reachable in the running game: the booted state,
followed by any interleaving of bus "action" events carrying one of the
five input actions (the only "action" payloads the input sources emit),
bus "reset" events, and scheduler-driven `update` calls. -/
inductive Reach : PlayerController → Prop
  | init (animations : String → Option (List Nat))
      (frameDurations : String → Option ℚ) :
      Reach (booted animations frameDurations)
  | action (pc : PlayerController) (a : String) :
      Reach pc → a ∈ ActionSet → Reach (pc.handleAction a).1
  | reset (pc : PlayerController) : Reach pc → Reach (pc.handleReset).1
  | update (pc : PlayerController) (dtMs worldWidth worldHeight : ℚ) :
      Reach pc → Reach (pc.update dtMs worldWidth worldHeight).1

end PlayerController

/-- One call recorded while `Game._tick` runs: a `player.update` call
with its millisecond step, or a `renderer.draw` call. -/
inductive TickCall where
  | update (dtMs : ℚ)
  | draw
  deriving DecidableEq

/-- State of `Game` relevant to the scheduler (src/main.js
lines 384-413): the fixed step, the accumulator and the previous
timestamp, plus the player (the animation player is reached through it). -/
structure Game where
  fixedDt : ℚ
  accumulator : ℚ
  lastTs : ℚ
  player : PlayerController

namespace Game

/-- The `while (this.accumulator >= this.fixedDt)` loop of `Game._tick`
(lines 454-457), with explicit fuel as in `AnimationPlayer.animLoop`
(`_tick` always runs it with the positive step 1000/60, for which the
fuel supplied below covers every iteration).  Returns the player and
accumulator after the loop and the list of `dtMs` arguments passed to
`player.update`, in call order. -/
def fixedLoop (d worldSize : ℚ) :
    Nat → PlayerController → ℚ → PlayerController × ℚ × List ℚ
  | 0, pc, acc => (pc, acc, [])
  | fuel + 1, pc, acc =>
    if d ≤ acc then
      let pc' := (pc.update d worldSize worldSize).1
      let r := fixedLoop d worldSize fuel pc' (acc - d)
      (r.1, r.2.1, d :: r.2.2)
    else (pc, acc, [])

/-- `Game._tick` (lines 445-478) at timestamp `ts`, without the FPS
bookkeeping (lines 467-475, pure HUD output).  Returns the new game
state and the trace of `player.update` / `renderer.draw` calls the tick
makes; the renderer's logical world size is 500 (line 328). -/
def tick (g : Game) (ts : ℚ) : Game × List TickCall :=
  let dt := ts - g.lastTs
  let clampedDt := min 100 (max 0 dt)
  let acc := g.accumulator + clampedDt
  let r := fixedLoop g.fixedDt 500 (AnimationPlayer.loopFuel acc g.fixedDt)
    g.player acc
  ({ g with lastTs := ts, accumulator := r.2.1, player := r.1 },
   r.2.2.map TickCall.update ++ [TickCall.draw])

end Game

namespace AnimationPlayer

/-- The frame duration `update` uses for the current animation: the
configured duration, with the source's `?? 100` default (line 144). -/
def currentDuration (p : AnimationPlayer) : ℚ :=
  (p.frameDurations p.current).getD 100

/-- The number of times `update p dtMs` subtracts the frame duration
(before wrap/clamp handling): the number of whole frame durations
contained in the accumulated time.  Derived quantity used to state the
closed form of the frame-advance loop. -/
def advanceCount (p : AnimationPlayer) (dtMs : ℚ) : Nat :=
  (⌊(p.accumulator + dtMs) / p.currentDuration⌋).toNat

/-- In-bounds invariant of the animation player: whenever the current
animation has a non-empty frame list, `frameIndex` is a valid index. -/
def FrameInv (p : AnimationPlayer) : Prop :=
  ∀ frames, p.animations p.current = some frames → frames ≠ [] →
    p.frameIndex < frames.length

end AnimationPlayer

/-- Fixture: an animation table with a single three-frame idle
animation. -/
def idleAnims : String → Option (List Nat) :=
  fun s => if s = "idle" then some [1, 2, 3] else none

/-- Fixture: idle frame duration 100 ms. -/
def idleDurs : String → Option ℚ :=
  fun s => if s = "idle" then some 100 else none

/-- Fixture: freshly constructed animation player over `idleAnims`. -/
def pW : AnimationPlayer := AnimationPlayer.mkInit idleAnims idleDurs

/-- Fixture: idle frame duration 10 ms (shorter than one fixed step). -/
def idleDursCx : String → Option ℚ :=
  fun s => if s = "idle" then some 10 else none

/-- Fixture: one fixed-timestep `player.update` call exactly as
`Game._tick` issues it (step 1000/60, logical world size 500). -/
def stepFixed (pc : PlayerController) : PlayerController :=
  (pc.update (1000 / 60) 500 500).1

/-- Fixture: the booted player over `idleAnims`/`idleDursCx` after one
scheduler step; its idle animation has advanced to frame 1. -/
def pcResetCx : PlayerController :=
  stepFixed (PlayerController.booted idleAnims idleDursCx)

/-- Invariant of the running game justified by the input sources: the
controller's state is one of the six states and every queued action is
one of the five input actions. -/
def PlayerController.StateOK (pc : PlayerController) : Prop :=
  pc.state ∈ "idle" :: ActionSet ∧ ∀ b ∈ pc.queue, b ∈ ActionSet

/-- Fixture: animation table with idle, kick and punch animations. -/
def fightAnims : String → Option (List Nat) :=
  fun s => if s = "idle" ∨ s = "kick" ∨ s = "punch" then some [4, 5] else none

/-- Fixture: an animation player whose one-shot kick animation has
finished. -/
def finishedKickAnim : AnimationPlayer :=
  { animations := fightAnims, frameDurations := idleDurs, current := "kick",
    loop := false, frameIndex := 1, accumulator := 0, finished := true }

/-- Fixture: a controller in state "kick" with a finished one-shot
animation and one queued action. -/
def pcC3 : PlayerController :=
  { anim := finishedKickAnim, state := "kick", queue := ["punch"],
    x := 0, y := 0, speed := 140 }

/-- Fixture: a game in its constructor state (fixedDt 1000/60). -/
def gW : Game :=
  { fixedDt := 1000 / 60, accumulator := 0, lastTs := 0,
    player := PlayerController.booted idleAnims idleDurs }

/-- Fixture: an environment in which every image URL loads (as image
handle 7). -/
def loadsAll : String → Option Nat := fun _ => some 7

/-- Fixture: an environment in which every image load fails. -/
def loadsFail : String → Option Nat := fun _ => none

/-- Fixture: the loader after successfully loading URL "u". -/
def loaderAfterU : AssetLoader :=
  (AssetLoader.loadImage loadsAll (AssetLoader.mkInit "images") "u").2.1

/-! ### Properties of the frame-advance loop -/

namespace AnimationPlayer

lemma toNat_floor_div_eq_zero {acc d : ℚ} (hd : 0 < d) (h : acc < d) :
    (⌊acc / d⌋).toNat = 0 := by
  have h1 : acc / d < 1 := (div_lt_one hd).mpr h
  have h2 : (⌊acc / d⌋ : ℚ) ≤ acc / d := Int.floor_le _
  have h3 : ⌊acc / d⌋ < 1 := by exact_mod_cast lt_of_le_of_lt h2 h1
  omega

lemma one_le_toNat_floor_div {acc d : ℚ} (hd : 0 < d) (h : d ≤ acc) :
    1 ≤ (⌊acc / d⌋).toNat := by
  have h1 : (1 : ℚ) ≤ acc / d := (one_le_div hd).mpr h
  have h2 : (1 : ℤ) ≤ ⌊acc / d⌋ := Int.le_floor.mpr (by exact_mod_cast h1)
  omega

lemma toNat_floor_div_sub {acc d : ℚ} (hd : 0 < d) (h : d ≤ acc) :
    (⌊(acc - d) / d⌋).toNat = (⌊acc / d⌋).toNat - 1 := by
  have hne : d ≠ 0 := ne_of_gt hd
  have h0 : (acc - d) / d = acc / d - 1 := by rw [sub_div, div_self hne]
  have h1 : (1 : ℚ) ≤ acc / d := (one_le_div hd).mpr h
  have h2 : (1 : ℤ) ≤ ⌊acc / d⌋ := Int.le_floor.mpr (by exact_mod_cast h1)
  rw [h0, Int.floor_sub_one]
  omega

/-- The loop never leaves the index range `[0, n)` it starts in. -/
lemma animLoop_fst_lt (n : Nat) (d : ℚ) (lp : Bool) :
    ∀ (fuel fi : Nat) (acc : ℚ) (fin : Bool), fi < n →
      (animLoop n d lp fuel fi acc fin).1 < n := by
  intro fuel
  induction fuel with
  | zero => intro fi acc fin hfi; simpa [animLoop] using hfi
  | succ fuel ih =>
    intro fi acc fin hfi
    rw [animLoop]
    by_cases hge : d ≤ acc
    · rw [if_pos hge]
      by_cases hw : n ≤ fi + 1
      · rw [if_pos hw]
        cases lp with
        | true => simpa using ih 0 (acc - d) fin (by omega)
        | false => simpa using (by omega : n - 1 < n)
      · rw [if_neg hw]
        exact ih (fi + 1) (acc - d) fin (by omega)
    · rw [if_neg hge]; simpa using hfi

/-- Closed form of the loop for a looping animation: the index advances
by one whole frame per contained frame duration and wraps modulo the
frame count; the remainder stays in the accumulator; `finished` is
untouched. -/
lemma animLoop_loop_eq (n : Nat) (d : ℚ) (hd : 0 < d) :
    ∀ (fuel fi : Nat) (acc : ℚ) (fin : Bool),
      fi < n → (⌊acc / d⌋).toNat ≤ fuel →
      animLoop n d true fuel fi acc fin =
        ((fi + (⌊acc / d⌋).toNat) % n,
         acc - ((⌊acc / d⌋).toNat : ℚ) * d, fin) := by
  intro fuel
  induction fuel with
  | zero =>
    intro fi acc fin hfi hk
    have hk0 : (⌊acc / d⌋).toNat = 0 := by omega
    rw [animLoop, hk0]
    simp [Nat.mod_eq_of_lt hfi]
  | succ fuel ih =>
    intro fi acc fin hfi hk
    by_cases hge : d ≤ acc
    · have h1 : 1 ≤ (⌊acc / d⌋).toNat := one_le_toNat_floor_div hd hge
      have hsub : (⌊(acc - d) / d⌋).toNat = (⌊acc / d⌋).toNat - 1 :=
        toNat_floor_div_sub hd hge
      rw [animLoop, if_pos hge]
      by_cases hw : n ≤ fi + 1
      · rw [if_pos hw]
        simp only [if_true]
        rw [ih 0 (acc - d) fin (by omega) (by omega), hsub]
        simp only [Prod.mk.injEq]
        refine ⟨?_, ?_, by trivial⟩
        · have he : fi + (⌊acc / d⌋).toNat =
              n + ((⌊acc / d⌋).toNat - 1) := by omega
          rw [he, Nat.add_mod_left, Nat.zero_add]
        · rw [Nat.cast_sub h1]
          push_cast
          ring
      · rw [if_neg hw]
        rw [ih (fi + 1) (acc - d) fin (by omega) (by omega), hsub]
        simp only [Prod.mk.injEq]
        refine ⟨?_, ?_, by trivial⟩
        · have he : fi + 1 + ((⌊acc / d⌋).toNat - 1) =
              fi + (⌊acc / d⌋).toNat := by omega
          rw [he]
        · rw [Nat.cast_sub h1]
          push_cast
          ring
    · have hk0 : (⌊acc / d⌋).toNat = 0 :=
        toNat_floor_div_eq_zero hd (lt_of_not_le hge)
      rw [animLoop, if_neg hge, hk0]
      simp [Nat.mod_eq_of_lt hfi]

/-- Closed form of the loop for a one-shot animation: the index advances
by one whole frame per contained frame duration until it would pass the
last frame; then it is clamped to the last frame, `finished` is set, and
the loop stops (also stopping the subtraction of frame durations). -/
lemma animLoop_oneshot_eq (n : Nat) (d : ℚ) (hd : 0 < d) :
    ∀ (fuel fi : Nat) (acc : ℚ) (fin : Bool),
      fi < n → (⌊acc / d⌋).toNat ≤ fuel →
      animLoop n d false fuel fi acc fin =
        if fi + (⌊acc / d⌋).toNat < n then
          (fi + (⌊acc / d⌋).toNat,
           acc - ((⌊acc / d⌋).toNat : ℚ) * d, fin)
        else
          (n - 1, acc - ((n - fi : Nat) : ℚ) * d, true) := by
  intro fuel
  induction fuel with
  | zero =>
    intro fi acc fin hfi hk
    have hk0 : (⌊acc / d⌋).toNat = 0 := by omega
    rw [animLoop, hk0, if_pos (by omega)]
    simp
  | succ fuel ih =>
    intro fi acc fin hfi hk
    by_cases hge : d ≤ acc
    · have h1 : 1 ≤ (⌊acc / d⌋).toNat := one_le_toNat_floor_div hd hge
      have hsub : (⌊(acc - d) / d⌋).toNat = (⌊acc / d⌋).toNat - 1 :=
        toNat_floor_div_sub hd hge
      rw [animLoop, if_pos hge]
      by_cases hw : n ≤ fi + 1
      · rw [if_pos hw]
        simp only [Bool.false_eq_true, if_false]
        rw [if_neg (by omega)]
        simp only [Prod.mk.injEq]
        refine ⟨by trivial, ?_, by trivial⟩
        have he : n - fi = 1 := by omega
        rw [he]
        push_cast
        ring
      · rw [if_neg hw]
        rw [ih (fi + 1) (acc - d) fin (by omega) (by omega), hsub]
        by_cases hlt : fi + (⌊acc / d⌋).toNat < n
        · rw [if_pos (by omega), if_pos hlt]
          simp only [Prod.mk.injEq]
          refine ⟨by omega, ?_, by trivial⟩
          rw [Nat.cast_sub h1]
          push_cast
          ring
        · rw [if_neg (by omega), if_neg hlt]
          simp only [Prod.mk.injEq]
          refine ⟨by trivial, ?_, by trivial⟩
          rw [Nat.cast_sub (by omega : fi + 1 ≤ n),
            Nat.cast_sub (by omega : fi ≤ n)]
          push_cast
          ring
    · have hk0 : (⌊acc / d⌋).toNat = 0 :=
        toNat_floor_div_eq_zero hd (lt_of_not_le hge)
      rw [animLoop, if_neg hge, hk0, if_pos (by omega)]
      simp

end AnimationPlayer

/-- C1: for every `AnimationPlayer.update dtMs` call with `dtMs ≥ 0`, a
non-empty frame list for the current animation, a positive frame
duration `d` for it, and an in-range prior frame index: `dtMs` is added
to the accumulator, then `d` is subtracted once per frame advance while
the accumulator holds at least `d` (`advanceCount` many times in total);
with `loop` the frame index wraps modulo the frame count, without `loop`
the index is clamped to the last frame, `finished` is set and advancing
stops at the clamp.  The resulting player state is the stated
deterministic function of the prior state and `dtMs`. -/
theorem animationPlayer_update_frame_advance (p : AnimationPlayer)
    (dtMs : ℚ) (frames : List Nat)
    (hfr : p.animations p.current = some frames) (hne : frames ≠ [])
    (hd : 0 < p.currentDuration) (hdt : 0 ≤ dtMs)
    (hfi : p.frameIndex < frames.length) :
    p.update dtMs =
      if p.loop then
        { p with
            frameIndex :=
              (p.frameIndex + p.advanceCount dtMs) % frames.length,
            accumulator :=
              p.accumulator + dtMs -
                (p.advanceCount dtMs : ℚ) * p.currentDuration }
      else if p.frameIndex + p.advanceCount dtMs < frames.length then
        { p with
            frameIndex := p.frameIndex + p.advanceCount dtMs,
            accumulator :=
              p.accumulator + dtMs -
                (p.advanceCount dtMs : ℚ) * p.currentDuration }
      else
        { p with
            frameIndex := frames.length - 1,
            accumulator :=
              p.accumulator + dtMs -
                ((frames.length - p.frameIndex : Nat) : ℚ) *
                  p.currentDuration,
            finished := true } := by
  have hn : 0 < frames.length := List.length_pos.mpr hne
  simp only [AnimationPlayer.currentDuration, AnimationPlayer.advanceCount]
    at hd ⊢
  have hfuel :
      (⌊(p.accumulator + dtMs) / (p.frameDurations p.current).getD 100⌋).toNat ≤
        AnimationPlayer.loopFuel (p.accumulator + dtMs)
          ((p.frameDurations p.current).getD 100) := by
    unfold AnimationPlayer.loopFuel
    rw [if_pos hd]
    omega
  simp only [AnimationPlayer.update, hfr]
  rw [if_neg (by omega)]
  cases hl : p.loop with
  | true =>
    rw [AnimationPlayer.animLoop_loop_eq frames.length _ hd _ _ _ _ hfi hfuel]
    rw [if_pos rfl]
  | false =>
    rw [if_neg (by simp)]
    rw [AnimationPlayer.animLoop_oneshot_eq frames.length _ hd _ _ _ _ hfi
      hfuel]
    by_cases hc :
        p.frameIndex +
          (⌊(p.accumulator + dtMs) / (p.frameDurations p.current).getD 100⌋).toNat <
          frames.length
    · rw [if_pos hc, if_pos hc]
    · rw [if_neg hc, if_neg hc]

/-- Witness for C1: a concrete looping update (three idle frames of
100 ms, 250 ms step) satisfying every hypothesis. -/
theorem animationPlayer_update_frame_advance_witness :
    pW.animations pW.current = some [1, 2, 3] ∧
    ([1, 2, 3] : List Nat) ≠ [] ∧
    0 < pW.currentDuration ∧ (0 : ℚ) ≤ 250 ∧
    pW.frameIndex < ([1, 2, 3] : List Nat).length ∧
    pW.update 250 =
      if pW.loop then
        { pW with
            frameIndex :=
              (pW.frameIndex + pW.advanceCount 250) %
                ([1, 2, 3] : List Nat).length,
            accumulator :=
              pW.accumulator + 250 -
                (pW.advanceCount 250 : ℚ) * pW.currentDuration }
      else if pW.frameIndex + pW.advanceCount 250 <
          ([1, 2, 3] : List Nat).length then
        { pW with
            frameIndex := pW.frameIndex + pW.advanceCount 250,
            accumulator :=
              pW.accumulator + 250 -
                (pW.advanceCount 250 : ℚ) * pW.currentDuration }
      else
        { pW with
            frameIndex := ([1, 2, 3] : List Nat).length - 1,
            accumulator :=
              pW.accumulator + 250 -
                ((([1, 2, 3] : List Nat).length - pW.frameIndex : Nat) : ℚ) *
                  pW.currentDuration,
            finished := true } := by
  have h1 : pW.animations pW.current = some [1, 2, 3] := by
    simp [pW, AnimationPlayer.mkInit, idleAnims]
  have h3 : 0 < pW.currentDuration := by
    norm_num [pW, AnimationPlayer.mkInit, AnimationPlayer.currentDuration,
      idleDurs]
  have h5 : pW.frameIndex < ([1, 2, 3] : List Nat).length := by
    norm_num [pW, AnimationPlayer.mkInit]
  exact ⟨h1, by simp, h3, by norm_num, h5,
    animationPlayer_update_frame_advance pW 250 [1, 2, 3] h1 (by simp) h3
      (by norm_num) h5⟩

/-- C10: the animation player never reads out of bounds.  The in-bounds
invariant `FrameInv` holds after construction and is preserved by every
`play` and every `update`; under it, `getFrame` on a present, non-empty
frame list returns an element of that list; on a missing or empty frame
list it returns `none` (the JS `null`). -/
theorem animationPlayer_no_oob
    (animations : String → Option (List Nat))
    (frameDurations : String → Option ℚ)
    (p : AnimationPlayer) (a : String) (lp : Bool) (dtMs : ℚ) :
    AnimationPlayer.FrameInv
      (AnimationPlayer.mkInit animations frameDurations) ∧
    (AnimationPlayer.FrameInv p →
      AnimationPlayer.FrameInv (p.play a lp)) ∧
    (AnimationPlayer.FrameInv p →
      AnimationPlayer.FrameInv (p.update dtMs)) ∧
    (AnimationPlayer.FrameInv p → ∀ frames,
      p.animations p.current = some frames → frames ≠ [] →
      p.frameIndex < frames.length ∧ ∃ img ∈ frames, p.getFrame = some img) ∧
    (p.animations p.current = none → p.getFrame = none) ∧
    (p.animations p.current = some [] → p.getFrame = none) := by
  refine ⟨?_, ?_, ?_, ?_, ?_, ?_⟩
  · intro frames hf hne
    simpa [AnimationPlayer.mkInit] using List.length_pos.mpr hne
  · intro hInv
    simp only [AnimationPlayer.play]
    cases h : p.animations a with
    | none => exact hInv
    | some fs =>
      by_cases hc : p.current = a ∧ p.loop = lp ∧ p.finished = false
      · rw [if_pos hc]; exact hInv
      · rw [if_neg hc]
        intro frames hf hne
        simpa using List.length_pos.mpr hne
  · intro hInv
    cases h : p.animations p.current with
    | none => simp only [AnimationPlayer.update, h]; exact hInv
    | some fs =>
      simp only [AnimationPlayer.update, h]
      by_cases h0 : fs.length = 0
      · rw [if_pos h0]; exact hInv
      · rw [if_neg h0]
        intro frames hf hne
        have hf' : p.animations p.current = some frames := hf
        rw [h] at hf'
        obtain rfl : fs = frames := Option.some.inj hf'
        have hfi : p.frameIndex < fs.length :=
          hInv fs h (List.ne_nil_of_length_pos (by omega))
        simpa using
          AnimationPlayer.animLoop_fst_lt fs.length _ p.loop _ p.frameIndex _
            p.finished hfi
  · intro hInv frames hf hne
    have hfi := hInv frames hf hne
    refine ⟨hfi, frames.get ⟨p.frameIndex, hfi⟩, List.get_mem _ _ _, ?_⟩
    simp only [AnimationPlayer.getFrame, hf]
    rw [if_neg (by omega)]
    simp [List.getElem?_eq_getElem hfi, List.get_eq_getElem]
  · intro h; simp [AnimationPlayer.getFrame, h]
  · intro h; simp [AnimationPlayer.getFrame, h]

/-- Witness for C10: the invariant holds for the concrete player `pW`
and is preserved across a concrete update. -/
theorem animationPlayer_no_oob_witness :
    AnimationPlayer.FrameInv pW ∧
    AnimationPlayer.FrameInv (pW.update 250) := by
  have hInvW : AnimationPlayer.FrameInv pW := by
    intro frames hf hne
    have he : frames = [1, 2, 3] := by
      simpa [pW, AnimationPlayer.mkInit, idleAnims] using hf.symm
    subst he
    simp [pW, AnimationPlayer.mkInit]
  exact ⟨hInvW,
    (animationPlayer_no_oob idleAnims idleDurs pW "idle" true 250).2.2.1
      hInvW⟩

/-! ### Properties of the player controller -/

namespace PlayerController

/-- Closed form of `_enterState`. -/
lemma enterState_eq (pc : PlayerController) (s : String) :
    pc.enterState s =
      ({ pc with
          state := s,
          anim := if s = "idle" then pc.anim.play "idle" true
                  else pc.anim.play s false },
       [BusMsg.stateChanged s]) := by
  unfold enterState
  by_cases h : s = "idle" <;> simp [h]

/-- One "action" event preserves the 13-element queue bound. -/
lemma handleAction_queue_len (pc : PlayerController) (a : String)
    (h : pc.queue.length ≤ 13) :
    (pc.handleAction a).1.queue.length ≤ 13 := by
  simp only [handleAction]
  by_cases ha : a = ""
  · rw [if_pos ha]; simpa using h
  · rw [if_neg ha]
    by_cases hq : 12 < pc.queue.length
    · rw [if_pos hq]
      simp [List.length_tail]
      omega
    · rw [if_neg hq]
      simp
      omega

/-- Any sequence of "action" events preserves the queue bound. -/
lemma handleAction_fold_len (acts : List String) :
    ∀ pc : PlayerController, pc.queue.length ≤ 13 →
      ((acts.foldl (fun q b => (q.handleAction b).1) pc).queue.length ≤ 13) := by
  induction acts with
  | nil => intro pc h; simpa using h
  | cons a rest ih =>
    intro pc h
    simp only [List.foldl_cons]
    exact ih _ (handleAction_queue_len pc a h)

end PlayerController

/-- C2: the action queue has a fixed cap.  Starting from any controller
whose queue holds at most 13 entries (the freshly constructed controller
has 0), handling one "action" event keeps the length at most 13 — when
the event arrives with more than 12 entries queued, the oldest entry is
shifted off before the new action is appended — and hence the bound
holds after every event of any sequence of "action" events. -/
theorem player_queue_cap (pc : PlayerController) (a : String)
    (acts : List String) (h : pc.queue.length ≤ 13) :
    (pc.handleAction a).1.queue.length ≤ 13 ∧
    (12 < pc.queue.length → a ≠ "" →
      (pc.handleAction a).1.queue = pc.queue.tail ++ [a]) ∧
    ((acts.foldl (fun q b => (q.handleAction b).1) pc).queue.length ≤ 13) := by
  refine ⟨PlayerController.handleAction_queue_len pc a h, ?_, ?_⟩
  · intro hq ha
    simp only [PlayerController.handleAction]
    rw [if_neg ha, if_pos hq]
  · exact PlayerController.handleAction_fold_len acts pc h

/-- Witness for C2: the booted controller (empty queue) and a burst of
twenty kick actions. -/
theorem player_queue_cap_witness :
    (PlayerController.booted idleAnims idleDurs).queue.length ≤ 13 ∧
    (((List.replicate 20 "kick").foldl (fun q b => (q.handleAction b).1)
        (PlayerController.booted idleAnims idleDurs)).queue.length ≤ 13) := by
  have h : (PlayerController.booted idleAnims idleDurs).queue.length ≤ 13 := by
    simp [PlayerController.booted, PlayerController.mkInit,
      PlayerController.enterState_eq]
  exact ⟨h,
    (player_queue_cap (PlayerController.booted idleAnims idleDurs) "kick"
      (List.replicate 20 "kick") h).2.2⟩

/-- C3: `PlayerController.update` consumes queued actions in FIFO order
and switches playback: with a non-idle state and a finished one-shot,
the queue head is removed and entered (or "idle" if the queue is empty);
with an idle state and a non-empty queue, the head is removed and
entered; entering "idle" plays the idle animation looping and entering
an action plays it as a one-shot (the entered animation then receives
the tick's `update dtMs`); when a one-shot is still running nothing is
consumed. -/
theorem player_update_fifo (pc : PlayerController)
    (dtMs worldWidth worldHeight : ℚ) :
    (∀ a rest, pc.state ≠ "idle" → pc.anim.finished = true →
      pc.queue = a :: rest → a ≠ "idle" →
      (pc.update dtMs worldWidth worldHeight).1.state = a ∧
      (pc.update dtMs worldWidth worldHeight).1.queue = rest ∧
      (pc.update dtMs worldWidth worldHeight).1.anim =
        (pc.anim.play a false).update dtMs) ∧
    (pc.state ≠ "idle" → pc.anim.finished = true → pc.queue = [] →
      (pc.update dtMs worldWidth worldHeight).1.state = "idle" ∧
      (pc.update dtMs worldWidth worldHeight).1.queue = [] ∧
      (pc.update dtMs worldWidth worldHeight).1.anim =
        (pc.anim.play "idle" true).update dtMs) ∧
    (∀ a rest, pc.state = "idle" → pc.queue = a :: rest → a ≠ "idle" →
      (pc.update dtMs worldWidth worldHeight).1.state = a ∧
      (pc.update dtMs worldWidth worldHeight).1.queue = rest ∧
      (pc.update dtMs worldWidth worldHeight).1.anim =
        (pc.anim.play a false).update dtMs) ∧
    (pc.state ≠ "idle" → pc.anim.finished = false →
      (pc.update dtMs worldWidth worldHeight).1.state = pc.state ∧
      (pc.update dtMs worldWidth worldHeight).1.queue = pc.queue ∧
      (pc.update dtMs worldWidth worldHeight).1.anim =
        pc.anim.update dtMs) := by
  refine ⟨?_, ?_, ?_, ?_⟩
  · intro a rest hs hf hq ha
    simp [PlayerController.update, PlayerController.consumeEnter,
      PlayerController.enterState_eq, hq, hs, hf, ha]
  · intro hs hf hq
    simp [PlayerController.update, PlayerController.consumeEnter,
      PlayerController.enterState_eq, hq, hs, hf]
  · intro a rest hs hq ha
    simp [PlayerController.update, PlayerController.consumeEnter,
      PlayerController.enterState_eq, hq, hs, ha]
  · intro hs hf
    simp [PlayerController.update, hs, hf]

/-- Witness for C3: a controller in state "kick" with a finished
one-shot and "punch" queued consumes "punch" and plays it as a
one-shot. -/
theorem player_update_fifo_witness :
    pcC3.state ≠ "idle" ∧ pcC3.anim.finished = true ∧
    pcC3.queue = "punch" :: [] ∧ ("punch" : String) ≠ "idle" ∧
    ((pcC3.update 16 500 500).1.state = "punch" ∧
     (pcC3.update 16 500 500).1.queue = [] ∧
     (pcC3.update 16 500 500).1.anim =
       (pcC3.anim.play "punch" false).update 16) := by
  refine ⟨by simp [pcC3], by simp [pcC3, finishedKickAnim], by simp [pcC3],
    by simp, ?_⟩
  exact (player_update_fifo pcC3 16 500 500).1 "punch" [] (by simp [pcC3])
    (by simp [pcC3, finishedKickAnim]) (by simp [pcC3]) (by simp)

namespace PlayerController

/-- `consumeEnter` preserves the six-state/queued-action invariant. -/
lemma stateOK_consumeEnter (pc : PlayerController) (h : pc.StateOK) :
    (consumeEnter pc).1.StateOK := by
  obtain ⟨h1, h2⟩ := h
  have htail : ∀ b ∈ pc.queue.tail, b ∈ ActionSet := fun b hb =>
    h2 b ((List.tail_sublist pc.queue).subset hb)
  simp only [consumeEnter, enterState_eq]
  refine ⟨?_, htail⟩
  cases hq : pc.queue with
  | nil => simp
  | cons b t =>
    have hb : b ∈ ActionSet := h2 b (by simp [hq])
    simp [hq, hb]

/-- One bus "action" event carrying one of the five input actions
preserves the invariant. -/
lemma stateOK_handleAction (pc : PlayerController) (a : String)
    (h : pc.StateOK) (ha : a ∈ ActionSet) : (pc.handleAction a).1.StateOK := by
  obtain ⟨h1, h2⟩ := h
  simp only [handleAction]
  by_cases he : a = ""
  · rw [if_pos he]; exact ⟨h1, h2⟩
  · rw [if_neg he]
    refine ⟨h1, ?_⟩
    intro b hb
    rcases List.mem_append.mp hb with hb | hb
    · by_cases hq : 12 < pc.queue.length
      · rw [if_pos hq] at hb
        exact h2 b ((List.tail_sublist pc.queue).subset hb)
      · rw [if_neg hq] at hb
        exact h2 b hb
    · rcases List.mem_singleton.mp hb with rfl
      exact ha

/-- A bus "reset" event preserves (in fact re-establishes) the
invariant. -/
lemma stateOK_handleReset (pc : PlayerController) :
    (pc.handleReset).1.StateOK := by
  simp only [handleReset, enterState_eq]
  exact ⟨by simp, by simp⟩

/-- A scheduler update preserves the invariant. -/
lemma stateOK_update (pc : PlayerController) (dtMs worldWidth worldHeight : ℚ)
    (h : pc.StateOK) : (pc.update dtMs worldWidth worldHeight).1.StateOK := by
  simp only [update]
  by_cases c1 : pc.state ≠ "idle" ∧ pc.anim.finished = true
  · rw [if_pos c1]
    have h1 := stateOK_consumeEnter pc h
    by_cases c2 : (consumeEnter pc).1.state = "idle" ∧
        0 < (consumeEnter pc).1.queue.length
    · rw [if_pos c2]
      exact stateOK_consumeEnter _ h1
    · rw [if_neg c2]
      exact h1
  · rw [if_neg c1]
    by_cases c2 : pc.state = "idle" ∧ 0 < pc.queue.length
    · rw [if_pos c2]
      exact stateOK_consumeEnter pc h
    · rw [if_neg c2]
      exact h

/-- The booted player satisfies the invariant. -/
lemma stateOK_booted (animations : String → Option (List Nat))
    (frameDurations : String → Option ℚ) :
    (booted animations frameDurations).StateOK := by
  simp only [booted, enterState_eq, mkInit]
  exact ⟨by simp, by simp⟩

/-- Every reachable player satisfies the invariant. -/
lemma reach_stateOK (pc : PlayerController) (h : Reach pc) : pc.StateOK := by
  induction h with
  | init animations frameDurations => exact stateOK_booted _ _
  | action pc a _ ha ih => exact stateOK_handleAction pc a ih ha
  | reset pc _ ih => exact stateOK_handleReset pc
  | update pc dtMs w hh _ ih => exact stateOK_update pc dtMs w hh ih

end PlayerController

/-- C4: the state machine has exactly six states.  Under the
precondition that every "action" payload is one of the five input
actions (which is all the input sources emit), every reachable
controller state — after boot, after every bus event and after every
update — is one of idle, kick, punch, forward, backward, block. -/
theorem player_states_six (pc : PlayerController)
    (h : PlayerController.Reach pc) :
    pc.state ∈ ["idle", "kick", "punch", "forward", "backward", "block"] := by
  have hOK := PlayerController.reach_stateOK pc h
  simpa [ActionSet] using hOK.1

/-- Witness for C4: the booted player is reachable and its state is in
the six-state set. -/
theorem player_states_six_witness :
    (PlayerController.booted idleAnims idleDurs).state ∈
      ["idle", "kick", "punch", "forward", "backward", "block"] :=
  player_states_six _ (PlayerController.Reach.init idleAnims idleDurs)

/-- C9 (amended): handling a "reset" event empties the queue, zeroes x
and y, enters state "idle" and plays the idle animation looping — which
restarts it from frame 0 whenever an idle animation exists and was not
already playing looping and unfinished; if it was, the play call is a
no-op and playback continues from the current frame — and emits a
"stateChanged" event followed by a "queueChanged" event carrying the
empty queue. -/
theorem player_reset_establishes (pc : PlayerController) :
    (pc.handleReset).1.queue = [] ∧ (pc.handleReset).1.x = 0 ∧
    (pc.handleReset).1.y = 0 ∧ (pc.handleReset).1.state = "idle" ∧
    (pc.handleReset).1.anim = pc.anim.play "idle" true ∧
    (pc.handleReset).2 =
      [BusMsg.stateChanged "idle", BusMsg.queueChanged []] ∧
    ((pc.anim.animations "idle").isSome = true →
      ¬(pc.anim.current = "idle" ∧ pc.anim.loop = true ∧
          pc.anim.finished = false) →
      (pc.handleReset).1.anim.frameIndex = 0) := by
  refine ⟨?_, ?_, ?_, ?_, ?_, ?_, ?_⟩
  · simp [PlayerController.handleReset, PlayerController.enterState_eq]
  · simp [PlayerController.handleReset, PlayerController.enterState_eq]
  · simp [PlayerController.handleReset, PlayerController.enterState_eq]
  · simp [PlayerController.handleReset, PlayerController.enterState_eq]
  · simp [PlayerController.handleReset, PlayerController.enterState_eq]
  · simp [PlayerController.handleReset, PlayerController.enterState_eq]
  · intro hsome hnot
    obtain ⟨fs, hfs⟩ := Option.isSome_iff_exists.mp hsome
    simp [PlayerController.handleReset, PlayerController.enterState_eq,
      AnimationPlayer.play, hfs, hnot]

/-- Witness for C9 (amended): a controller whose animation player is on
a finished kick one-shot; reset restarts idle from frame 0. -/
theorem player_reset_establishes_witness :
    ((pcC3.anim.animations "idle").isSome = true ∧
     ¬(pcC3.anim.current = "idle" ∧ pcC3.anim.loop = true ∧
         pcC3.anim.finished = false)) ∧
    ((pcC3.handleReset).1.queue = [] ∧ (pcC3.handleReset).1.state = "idle" ∧
     (pcC3.handleReset).1.anim.frameIndex = 0) := by
  have hs : (pcC3.anim.animations "idle").isSome = true := by
    simp [pcC3, finishedKickAnim, fightAnims]
  have hn : ¬(pcC3.anim.current = "idle" ∧ pcC3.anim.loop = true ∧
      pcC3.anim.finished = false) := by
    simp [pcC3, finishedKickAnim]
  have h := player_reset_establishes pcC3
  exact ⟨⟨hs, hn⟩, h.1, h.2.2.2.1, h.2.2.2.2.2.2 hs hn⟩

/-- C9 counterexample: `pcResetCx` is reachable (boot, then one
fixed-timestep update under a 10 ms idle frame duration) and its idle
animation is looping, unfinished, at frame 1; handling "reset" leaves
the frame index at 1 — the idle animation is *not* restarted from frame
0, because the play call is a no-op while idle is already playing. -/
theorem player_reset_not_frame0 :
    PlayerController.Reach pcResetCx ∧
    (pcResetCx.handleReset).1.anim.frameIndex = 1 ∧
    (pcResetCx.handleReset).1.anim.frameIndex ≠ 0 := by
  have h1 : (pcResetCx.handleReset).1.anim.frameIndex = 1 := by
    norm_num [pcResetCx, stepFixed, PlayerController.booted,
      PlayerController.mkInit, AnimationPlayer.mkInit,
      PlayerController.update, PlayerController.consumeEnter,
      PlayerController.enterState_eq, PlayerController.handleReset,
      AnimationPlayer.play, AnimationPlayer.update, AnimationPlayer.animLoop,
      AnimationPlayer.loopFuel, idleAnims, idleDursCx, min_def, max_def,
      Int.floor_eq_iff]
  refine ⟨?_, h1, by omega⟩
  exact PlayerController.Reach.update _ (1000 / 60) 500 500
    (PlayerController.Reach.init idleAnims idleDursCx)

/-- C6 counterexample: the reset button's click handler emits the
"reset" event, which is not an "action" event at all. -/
theorem input_reset_button_emits_reset :
    buttonClickEvents "reset" = [BusMsg.reset] ∧
    isFiveAction BusMsg.reset = false := by
  constructor
  · simp [buttonClickEvents]
  · rfl

/-- C6 (amended): every message the keyboard handler emits is an
"action" event whose payload is one of kick, punch, forward, backward,
block; every message a button click handler emits is either such an
"action" event or the "reset" event emitted by the reset button. -/
theorem input_events_only_actions_or_reset (key id : String) (m : BusMsg) :
    (m ∈ keydownEvents key → isFiveAction m = true) ∧
    (m ∈ buttonClickEvents id → isFiveAction m = true ∨ m = BusMsg.reset) := by
  constructor
  · intro hm
    unfold keydownEvents at hm
    split_ifs at hm <;>
      first
        | (simp only [List.mem_singleton] at hm; subst hm; decide)
        | simp at hm
  · intro hm
    unfold buttonClickEvents at hm
    split_ifs at hm with h1 h2
    · simp only [List.mem_singleton] at hm
      subst hm
      left
      rcases h1 with h | h | h | h | h <;> subst h <;> decide
    · simp only [List.mem_singleton] at hm
      subst hm
      right; rfl
    · simp at hm

/-- Witness for C6 (amended): the ArrowUp key emits the kick action and
the reset button emits the reset event. -/
theorem input_events_only_actions_or_reset_witness :
    BusMsg.action "kick" ∈ keydownEvents "ArrowUp" ∧
    isFiveAction (BusMsg.action "kick") = true ∧
    BusMsg.reset ∈ buttonClickEvents "reset" ∧
    (isFiveAction BusMsg.reset = true ∨ BusMsg.reset = BusMsg.reset) := by
  refine ⟨by simp [keydownEvents], ?_, by simp [buttonClickEvents], ?_⟩
  · exact (input_events_only_actions_or_reset "ArrowUp" "kick"
      (BusMsg.action "kick")).1 (by simp [keydownEvents])
  · exact (input_events_only_actions_or_reset "ArrowUp" "reset"
      BusMsg.reset).2 (by simp [buttonClickEvents])

/-! ### Properties of the scheduler and the asset loader -/

namespace Game

/-- With a positive step and sufficient fuel, the fixed-update loop of
`_tick` passes the step to `player.update` exactly once per whole step
contained in the accumulator. -/
lemma fixedLoop_calls (d worldSize : ℚ) (hd : 0 < d) :
    ∀ (fuel : Nat) (pc : PlayerController) (acc : ℚ),
      (⌊acc / d⌋).toNat ≤ fuel →
      (fixedLoop d worldSize fuel pc acc).2.2 =
        List.replicate ((⌊acc / d⌋).toNat) d := by
  intro fuel
  induction fuel with
  | zero =>
    intro pc acc hk
    have hk0 : (⌊acc / d⌋).toNat = 0 := by omega
    rw [fixedLoop, hk0]
    simp
  | succ fuel ih =>
    intro pc acc hk
    by_cases hge : d ≤ acc
    · have h1 := AnimationPlayer.one_le_toNat_floor_div hd hge
      have hsub := AnimationPlayer.toNat_floor_div_sub hd hge
      rw [fixedLoop, if_pos hge]
      have hrep : List.replicate ((⌊acc / d⌋).toNat) d =
          d :: List.replicate ((⌊acc / d⌋).toNat - 1) d := by
        conv_lhs =>
          rw [show (⌊acc / d⌋).toNat = ((⌊acc / d⌋).toNat - 1) + 1 by omega]
        rw [List.replicate_succ]
      rw [hrep]
      simp only [List.cons.injEq]
      refine ⟨trivial, ?_⟩
      rw [ih _ _ (by omega), hsub]
    · have hk0 := AnimationPlayer.toNat_floor_div_eq_zero hd (lt_of_not_le hge)
      rw [fixedLoop, if_neg hge, hk0]
      simp

end Game

/-- C5: the scheduler advances game state at a constant rate and renders
once per tick.  With the constructor's `fixedDt = 1000/60`, every
`Game._tick` issues exactly `⌊acc / fixedDt⌋` calls to `player.update`
(where `acc` is the prior accumulator plus the elapsed time clamped to
at most 100 ms and at least 0), each with the constant step 1000/60,
then exactly one `renderer.draw` call; `fixedDt` is unchanged. -/
theorem game_tick_schedule (g : Game) (ts : ℚ)
    (hfd : g.fixedDt = 1000 / 60) :
    (g.tick ts).2 =
      List.replicate
        ((⌊(g.accumulator + min 100 (max 0 (ts - g.lastTs))) /
            (1000 / 60 : ℚ)⌋).toNat)
        (TickCall.update (1000 / 60)) ++ [TickCall.draw] ∧
    (g.tick ts).1.fixedDt = 1000 / 60 := by
  constructor
  · have hfu : (⌊(g.accumulator + min 100 (max 0 (ts - g.lastTs))) /
        (1000 / 60 : ℚ)⌋).toNat ≤
        AnimationPlayer.loopFuel
          (g.accumulator + min 100 (max 0 (ts - g.lastTs))) (1000 / 60) := by
      unfold AnimationPlayer.loopFuel
      rw [if_pos (by norm_num)]
      omega
    simp only [Game.tick, hfd]
    rw [Game.fixedLoop_calls (1000 / 60) 500 (by norm_num) _ _ _ hfu,
      List.map_replicate]
  · simp [Game.tick, hfd]

/-- Witness for C5: the fresh game `gW`, ticked at timestamp 20. -/
theorem game_tick_schedule_witness :
    gW.fixedDt = 1000 / 60 ∧
    ((gW.tick 20).2 =
      List.replicate
        ((⌊(gW.accumulator + min 100 (max 0 ((20 : ℚ) - gW.lastTs))) /
            (1000 / 60 : ℚ)⌋).toNat)
        (TickCall.update (1000 / 60)) ++ [TickCall.draw] ∧
     (gW.tick 20).1.fixedDt = 1000 / 60) :=
  ⟨rfl, game_tick_schedule gW 20 rfl⟩

/-- C7: the only failure handling is an error string on image-load
failure.  A failed, uncached load rejects with exactly
"Failed to load image: <url>", creates no cache entry (the loader is
returned unchanged, so nothing is retried); `loadAnimations` propagates
the first such rejection verbatim; and when loading rejects, `boot`
displays "Failed to load assets. Check console." instead of starting
the game. -/
theorem loader_failure_handling (loads : String → Option Nat)
    (L : AssetLoader) (url animation : String) (frameNumber : Nat)
    (rest : List Nat) (frames2 : List (String × List Nat))
    (hc : L.cache url = none) (hl : loads url = none) :
    AssetLoader.loadImage loads L url =
      (Except.error ("Failed to load image: " ++ url), L, true) ∧
    (AssetLoader.urlFor L.basePath animation frameNumber = url →
      AssetLoader.loadFrames loads L animation (frameNumber :: rest) =
        Except.error ("Failed to load image: " ++ url)) ∧
    (AssetLoader.urlFor L.basePath animation frameNumber = url →
      AssetLoader.loadAnimations loads L
          ((animation, frameNumber :: rest) :: frames2) =
        Except.error ("Failed to load image: " ++ url)) ∧
    (AssetLoader.loadAnimations loads (AssetLoader.mkInit "images")
        bootFrames = Except.error ("Failed to load image: " ++ url) →
      boot loads = BootResult.showError
        "Failed to load assets. Check console.") := by
  have h1 : AssetLoader.loadImage loads L url =
      (Except.error ("Failed to load image: " ++ url), L, true) := by
    simp [AssetLoader.loadImage, hc, hl]
  have h2 : AssetLoader.urlFor L.basePath animation frameNumber = url →
      AssetLoader.loadFrames loads L animation (frameNumber :: rest) =
        Except.error ("Failed to load image: " ++ url) := by
    intro hu
    simp [AssetLoader.loadFrames, hu, h1]
  refine ⟨h1, h2, ?_, ?_⟩
  · intro hu
    simp [AssetLoader.loadAnimations, h2 hu]
  · intro hb
    simp [boot, hb]

/-- Witness for C7: with every load failing, the first frame URL of the
boot frame table rejects and boot shows the error string. -/
theorem loader_failure_handling_witness :
    (AssetLoader.mkInit "images").cache "images/idle/1.png" = none ∧
    loadsFail "images/idle/1.png" = none ∧
    AssetLoader.loadImage loadsFail (AssetLoader.mkInit "images")
        "images/idle/1.png" =
      (Except.error ("Failed to load image: " ++ "images/idle/1.png"),
       AssetLoader.mkInit "images", true) ∧
    boot loadsFail = BootResult.showError
      "Failed to load assets. Check console." := by
  have h := loader_failure_handling loadsFail (AssetLoader.mkInit "images")
    "images/idle/1.png" "idle" 1 [2, 3, 4, 5, 6, 7, 8]
    [("kick", [1, 2, 3, 4, 5, 6, 7]), ("punch", [1, 2, 3, 4, 5, 6, 7]),
     ("backward", [1, 2, 3, 4, 5, 6]), ("forward", [1, 2, 3, 4, 5, 6]),
     ("block", [1, 2, 3, 4, 5, 6])] rfl rfl
  exact ⟨rfl, rfl, h.1, h.2.2.2 (h.2.2.1 rfl)⟩

/-- C8: the image cache is keyed by URL and loading is idempotent per
URL.  After any successful `loadImage` (cache hit or fresh load), the
returned loader's cache maps that exact URL to the returned image, and
a repeated `loadImage` of the same URL returns the same image and the
same loader while creating no new `Image` and issuing no new load. -/
theorem loader_cache_idempotent (loads : String → Option Nat)
    (L L' : AssetLoader) (url : String) (img : Nat) (issued : Bool)
    (h : AssetLoader.loadImage loads L url = (Except.ok img, L', issued)) :
    L'.cache url = some img ∧
    AssetLoader.loadImage loads L' url = (Except.ok img, L', false) := by
  unfold AssetLoader.loadImage at h
  cases hcache : L.cache url with
  | some i =>
    rw [hcache] at h
    simp only [Prod.mk.injEq, Except.ok.injEq] at h
    obtain ⟨rfl, rfl, -⟩ := h
    refine ⟨hcache, ?_⟩
    simp [AssetLoader.loadImage, hcache]
  | none =>
    rw [hcache] at h
    cases hload : loads url with
    | some i =>
      rw [hload] at h
      simp only [Prod.mk.injEq, Except.ok.injEq] at h
      obtain ⟨rfl, rfl, -⟩ := h
      have hc : (AssetLoader.loadImage loads L url).2.1.cache url = some i :=
        by simp [AssetLoader.loadImage, hcache, hload]
      constructor
      · simp
      · simp [AssetLoader.loadImage]
    | none =>
      rw [hload] at h
      simp at h

/-- Witness for C8: loading URL "u" once caches image 7 under "u" and a
second load is a cache hit returning the same loader. -/
theorem loader_cache_idempotent_witness :
    AssetLoader.loadImage loadsAll (AssetLoader.mkInit "images") "u" =
      (Except.ok 7, loaderAfterU, true) ∧
    (loaderAfterU.cache "u" = some 7 ∧
     AssetLoader.loadImage loadsAll loaderAfterU "u" =
       (Except.ok 7, loaderAfterU, false)) := by
  have h : AssetLoader.loadImage loadsAll (AssetLoader.mkInit "images") "u" =
      (Except.ok 7, loaderAfterU, true) := rfl
  exact ⟨h, loader_cache_idempotent loadsAll _ _ "u" 7 true h⟩
